import Mathlib

/-!
Verification of `parse_lib.py` (jdnarvaez/dicom-standard).

The Python module is a collection of pure string- and HTML-tree-transformation
functions.  We shallow-embed them here:

* Python strings are Lean `String`s; the string algorithms (`str.split`,
  `str.replace`, `str.strip`, regex matching against the concrete patterns used
  in the source) are implemented over `List Char`, faithful to CPython
  semantics for the concrete separators/patterns appearing in the source.
* BeautifulSoup parse trees are modelled by the mutual inductive `Node` /
  `NodeList`: a node is either a `NavigableString` (`Node.text`) or a tag
  (`Node.elem`) with a name, an ordered attribute mapping (Python `dict`
  preserves insertion order) and an ordered child list.
* `clean_html` works at the tree level: parsing a fragment string and
  re-serialising a tree (`str(tag)` followed by `BeautifulSoup(...)` in
  `clean_html`) are inverse to each other for the trees considered, so the
  pipeline is modelled as a tree-to-tree function on the top-level tag.
* Fallible Python code (tuple-unpacking of `str.split` results, which raises
  `ValueError` on the wrong number of parts; `KeyError` on a missing
  attribute) is modelled with `Option`, `none` standing for a raised error.
-/

/-! ## Generic list/string helpers (CPython `str` semantics) -/

/-- `listStartsWith pat s` decides whether `pat` is an initial segment of `s`. -/
def listStartsWith : List Char → List Char → Bool
  | [], _ => true
  | _ :: _, [] => false
  | p :: ps, c :: cs => p == c && listStartsWith ps cs

/-- `containsSub pat s` decides whether `pat` occurs as a contiguous
substring of `s`. -/
def containsSub (pat : List Char) : List Char → Bool
  | [] => listStartsWith pat []
  | c :: rest => listStartsWith pat (c :: rest) || containsSub pat rest

/-- Helper for `splitChar`: returns the first field and the remaining fields
of splitting on the separator character. -/
def splitCharAux (sep : Char) : List Char → List Char × List (List Char)
  | [] => ([], [])
  | c :: rest =>
    let r := splitCharAux sep rest
    if c == sep then ([], r.1 :: r.2) else (c :: r.1, r.2)

/-- Python `s.split(sep)` for a one-character separator `sep`:
splits at every occurrence, keeping empty fields (`"".split` gives `[""]`). -/
def splitChar (sep : Char) (s : List Char) : List (List Char) :=
  (splitCharAux sep s).1 :: (splitCharAux sep s).2

/-- Python `s.split(".html")`, specialised to the concrete separator used in
`get_short_html_location` (src line 123): splits at each leftmost,
non-overlapping occurrence of the five characters `.html`. -/
def splitHtmlSep : List Char → List (List Char)
  | '.' :: 'h' :: 't' :: 'm' :: 'l' :: rest => [] :: splitHtmlSep rest
  | c :: rest =>
    match splitHtmlSep rest with
    | [] => [[c]]
    | p :: ps => (c :: p) :: ps
  | [] => [[]]

/-- The set of characters for which Python `str.isspace()` holds; these are the
characters removed from both ends by `str.strip()`. -/
def isPySpace (c : Char) : Bool :=
  [' ', '\t', '\n', '\r', '\x0b', '\x0c', '\x1c', '\x1d', '\x1e', '\x1f',
   '\x85', '\u00A0', '\u1680', '\u2000', '\u2001', '\u2002', '\u2003',
   '\u2004', '\u2005', '\u2006', '\u2007', '\u2008', '\u2009', '\u200A',
   '\u2028', '\u2029', '\u202F', '\u205F', '\u3000'].contains c

/-- Python `s.strip()`: removes leading and trailing whitespace. -/
def pyStrip (s : String) : String :=
  String.mk (((s.data.dropWhile isPySpace).reverse.dropWhile isPySpace).reverse)

/-- Python `s.replace('sect_', 'chapter_')` (src line 134), specialised to the
concrete argument strings: every leftmost, non-overlapping occurrence of
`sect_` is replaced by `chapter_`. -/
def replaceSectWithChapter : List Char → List Char
  | 's' :: 'e' :: 'c' :: 't' :: '_' :: rest => "chapter_".data ++ replaceSectWithChapter rest
  | c :: rest => c :: replaceSectWithChapter rest
  | [] => []

/-- Number of occurrences of a character in a string. -/
def countChar (c : Char) (s : String) : Nat :=
  s.data.count c

/-! ## Constants from the source (src lines 16-20) -/

def BASE_DICOM_URL : String :=
  "http://dicom.nema.org/medical/dicom/current/output/html/"

def BASE_SHORT_DICOM_SECTION_URL : String :=
  "http://dicom.nema.org/medical/dicom/current/output/chtml/"

def allowed_attributes : List String :=
  ["href", "src", "type", "data", "colspan", "rowspan"]

/-! ## String-level functions of `parse_lib.py` -/

/-- Embeds `clean_table_name` (src lines 56-60).  `_, _, title =
re.split('\u00A0', name)` raises `ValueError` (here: `none`) unless the split
has exactly three fields.  `re.split(suffixes, title)` with the alternation
`(IOD Modules)|(Module Attributes)|(Macro Attributes)|(Module Table)` cuts the
title at the leftmost occurrence of any of the four suffixes;
`clean_title, *_ = ...` keeps only the text before that occurrence
(or the whole title when no suffix occurs).  The result is stripped. -/
def clean_table_name (name : String) : Option String :=
  match (splitChar '\u00A0' name.data).map String.mk with
  | [_, _, title] => some (pyStrip (String.mk (beforeFirstTableEnding title.data)))
  | _ => none
where
  /-- Does one of the four recognised table-name endings start here? -/
  tableEndingHere (s : List Char) : Bool :=
    listStartsWith "IOD Modules".data s || listStartsWith "Module Attributes".data s ||
    listStartsWith "Macro Attributes".data s || listStartsWith "Module Table".data s
  /-- Text before the first occurrence of a recognised table-name ending. -/
  beforeFirstTableEnding : List Char → List Char
    | [] => []
    | c :: rest =>
      if tableEndingHere (c :: rest) then []
      else c :: beforeFirstTableEnding rest

/-- Embeds `has_protocol_prefix` (src lines 109-110):
`re.match(r'(http)|(ftp)', value)` succeeds exactly when the value starts with
`http` or with `ftp`. -/
def has_url_protocol (s : String) : Bool :=
  listStartsWith "http".data s.data || listStartsWith "ftp".data s.data

/-- Embeds the dispatch regex of `resolve_href_url` (src line 114):
`re.match(r'(.*sect_.*)|(.*chapter.*)', href)` succeeds exactly when `sect_`
or `chapter` occurs in `href` before any newline (`.` does not match `\n`). -/
def matchesShortReference (href : String) : Bool :=
  let firstLine := href.data.takeWhile (fun c => c != '\n')
  containsSub "sect_".data firstLine || containsSub "chapter".data firstLine

/-- Embeds `get_standard_page` (src lines 127-137): split the section id on
`.`; if some component equals `1`, keep the components before the first such
occurrence, re-join them with `.`, and when exactly one component was kept
replace `sect_` with `chapter_`; if no component equals `1`, return the
section id unchanged (the `except ValueError` fallback). -/
def get_standard_page (sect_id : String) : String :=
  let sections := (splitChar '.' sect_id.data).map String.mk
  match sections.findIdx? (fun s => s == "1") with
  | some cutoff_index =>
    let cropped_section := sections.take cutoff_index
    let section_page := String.intercalate "." cropped_section
    if cropped_section.length == 1 then
      String.mk (replaceSectWithChapter section_page.data)
    else section_page
  | none => sect_id

/-- Embeds `get_short_html_location` (src lines 120-124).  Both tuple
unpackings (`reference_link.split('#')` and
`chapter_with_extension.split('.html')`) raise `ValueError` (here: `none`)
unless they produce exactly two fields. -/
def get_short_html_location (reference_link : String) : Option String :=
  match (splitChar '#' reference_link.data).map String.mk with
  | [standard_page, section_id] =>
    let chapter_with_extension :=
      if standard_page == "" then "part03.html" else standard_page
    match (splitHtmlSep chapter_with_extension.data).map String.mk with
    | [chapter, _] =>
      some (chapter ++ "/" ++ get_standard_page section_id ++ ".html#" ++ section_id)
    | _ => none
  | _ => none

/-- Embeds `get_long_html_location` (src lines 140-143): the tuple unpacking
of `reference_link.split('#')` raises `ValueError` (here: `none`) unless it
produces exactly two fields. -/
def get_long_html_location (reference_link : String) : Option String :=
  match (splitChar '#' reference_link.data).map String.mk with
  | [standard_page, section_id] =>
    let chapter_with_extension :=
      if standard_page == "" then "part03.html" else standard_page
    some (chapter_with_extension ++ "#" ++ section_id)
  | _ => none

/-- Embeds `resolve_href_url` (src lines 113-117). -/
def resolve_href_url (href : String) : Option String :=
  if matchesShortReference href then
    (get_short_html_location href).map (fun loc => BASE_SHORT_DICOM_SECTION_URL ++ loc)
  else
    (get_long_html_location href).map (fun loc => BASE_DICOM_URL ++ loc)

/-- Embeds the string-processing core of `table_parent_page` (src lines
157-162), taking as input the string `parent_section_id` that line 156
extracts from the DOM (`table_div.parent.div.div.div.find('a').get('id')`):
split on `.`; if some component equals `1`, return the components before the
first such occurrence re-joined with `.`; otherwise return the id unchanged
(the `except ValueError` fallback). -/
def table_parent_page (parent_section_id : String) : String :=
  let sections := (splitChar '.' parent_section_id.data).map String.mk
  match sections.findIdx? (fun s => s == "1") with
  | some cutoff_index => String.intercalate "." (sections.take cutoff_index)
  | none => parent_section_id

/-! ## The HTML tree model

BeautifulSoup nodes: a `Node.text` is a `NavigableString`; a `Node.elem` is a
tag with its name, ordered attribute mapping and ordered children.  `NodeList`
is an inlined list of nodes so that all tree functions are structurally
recursive. -/

mutual
inductive Node where
  | text (s : String)
  | elem (tag : String) (attrs : List (String × String)) (children : NodeList)
deriving DecidableEq
inductive NodeList where
  | nil
  | cons (head : Node) (tail : NodeList)
deriving DecidableEq
end

/-- First value bound to a key in an attribute mapping (`tag.get(key)` /
`tag[key]`); `none` models a missing attribute. -/
def getAttr : List (String × String) → String → Option String
  | [], _ => none
  | (k, v) :: rest, key => if k == key then some v else getAttr rest key

/-- Python dict assignment `tag[key] = value`: replaces the value of an
existing key in place, otherwise appends the new pair at the end
(insertion order). -/
def setAttr : List (String × String) → String → String → List (String × String)
  | [], key, value => [(key, value)]
  | (k, v) :: rest, key, value =>
    if k == key then (key, value) :: rest else (k, v) :: setAttr rest key value

/-- The attribute mapping of a node (`tag.attrs`; empty for strings). -/
def Node.attrsOf : Node → List (String × String)
  | .text _ => []
  | .elem _ attrs _ => attrs

mutual
/-- BS4 `tag.text`: concatenation of all descendant `NavigableString`s, as a
character list. -/
def Node.textChars : Node → List Char
  | .text s => s.data
  | .elem _ _ cs => NodeList.textCharsList cs
def NodeList.textCharsList : NodeList → List Char
  | .nil => []
  | .cons n ns => n.textChars ++ NodeList.textCharsList ns
end

/-- An anchor tag whose concatenated text content is the empty string: these
are the nodes `remove_empty_children` (src lines 86-89) decomposes. -/
def Node.isEmptyAnchor : Node → Bool
  | .text _ => false
  | .elem tag _ cs => tag == "a" && (NodeList.textCharsList cs).isEmpty

/-- Embeds `clean_tag_attributes` (src lines 81-83) on the attribute mapping:
keep exactly the pairs whose key is in `allowed_attributes`. -/
def clean_tag_attributes (attrs : List (String × String)) : List (String × String) :=
  attrs.filter (fun kv => allowed_attributes.contains kv.1)

mutual
/-- Embeds `remove_attributes_from_html_tags` (src lines 75-78): applies
`clean_tag_attributes` to the top-level tag and every descendant tag
(`NavigableString`s are skipped by the `isinstance` test on src line 82). -/
def remove_attributes_from_html_tags : Node → Node
  | .text s => .text s
  | .elem tag attrs cs => .elem tag (clean_tag_attributes attrs) (cleanAttrsList cs)
def cleanAttrsList : NodeList → NodeList
  | .nil => .nil
  | .cons n ns => .cons (remove_attributes_from_html_tags n) (cleanAttrsList ns)
end

mutual
/-- Embeds `remove_empty_children` (src lines 86-89): decompose every
descendant anchor whose text is empty.  `find_all('a')` searches descendants
only, so the top-level tag itself is never removed.  Decomposing an anchor
detaches its whole subtree, which also covers empty anchors nested inside
decomposed ones, so the pass is the recursive filter below. -/
def remove_empty_children : Node → Node
  | .text s => .text s
  | .elem tag attrs cs => .elem tag attrs (removeEmptyList cs)
def removeEmptyList : NodeList → NodeList
  | .nil => .nil
  | .cons n ns =>
    if n.isEmptyAnchor then removeEmptyList ns
    else .cons (remove_empty_children n) (removeEmptyList ns)
end

/-- Embeds `update_anchor_href` (src lines 103-106).  Reading `anchor['href']`
raises `KeyError` (here: `none`) when the attribute is missing (the call site
guarantees presence via `find_all('a', href=True)`); a failing
`resolve_href_url` propagates its `ValueError`.  On success the resolved
`href` is written back and `target='_blank'` is appended. -/
def update_anchor_href : Node → Option Node
  | .text _ => none
  | .elem tag attrs cs =>
    match getAttr attrs "href" with
    | none => none
    | some href =>
      if has_url_protocol href then some (.elem tag attrs cs)
      else
        match resolve_href_url href with
        | none => none
        | some url =>
          some (.elem tag (setAttr (setAttr attrs "href" url) "target" "_blank") cs)

/-- Embeds `resolve_resource` (src lines 145-147): unless the value already
has a protocol, prepend `BASE_DICOM_URL`.  Reading a missing attribute raises
`KeyError` (here: `none`); the call sites guarantee presence. -/
def resolve_resource (url_attribute : String) : Node → Option Node
  | .text _ => none
  | .elem tag attrs cs =>
    match getAttr attrs url_attribute with
    | none => none
    | some v =>
      if has_url_protocol v then some (.elem tag attrs cs)
      else some (.elem tag (setAttr attrs url_attribute (BASE_DICOM_URL ++ v)) cs)

/-- The per-node action of `resolve_relative_resource_urls` (src lines
92-100): `find_all('a', href=True)` nodes get `update_anchor_href`,
`find_all('img', src=True)` nodes get `resolve_resource('src')`,
`find_all('object', data=True)` nodes get `resolve_resource('data')`; every
other node is untouched. -/
def resolveTagNode (tag : String) (attrs : List (String × String)) (cs : NodeList) :
    Option Node :=
  if tag == "a" && (getAttr attrs "href").isSome then
    update_anchor_href (.elem tag attrs cs)
  else if tag == "img" && (getAttr attrs "src").isSome then
    resolve_resource "src" (.elem tag attrs cs)
  else if tag == "object" && (getAttr attrs "data").isSome then
    resolve_resource "data" (.elem tag attrs cs)
  else some (.elem tag attrs cs)

mutual
/-- Embeds `resolve_relative_resource_urls` (src lines 92-100) at the tree
level: the three `find_all` passes update matching nodes in place and touch
nothing else, so their combined effect is this single traversal applying
`resolveTagNode` to the node itself and every descendant.  The first
`ValueError` raised by an anchor's `resolve_href_url` aborts the whole call
(here: `none`). -/
def resolve_relative_resource_urls : Node → Option Node
  | .text s => some (.text s)
  | .elem tag attrs cs =>
    match resolveUrlsList cs with
    | none => none
    | some cs2 => resolveTagNode tag attrs cs2
def resolveUrlsList : NodeList → Option NodeList
  | .nil => some .nil
  | .cons n ns =>
    match resolve_relative_resource_urls n, resolveUrlsList ns with
    | some n2, some ns2 => some (.cons n2 ns2)
    | _, _ => none
end

/-- Embeds `clean_html` (src lines 63-68) on the already-parsed top-level tag
(`get_top_level_tag`): strip attributes, remove empty anchors, then resolve
URLs over the re-parsed fragment (str-roundtrip is the identity at the tree
level; the re-parse makes the top-level tag itself visible to `find_all`, so
the resolution pass includes it).  When the first node of the fragment is a
`NavigableString`, iterating `top_level_tag.descendants` on src line 77
raises `AttributeError` (here: `none`). -/
def clean_html : Node → Option Node
  | .text _ => none
  | .elem tag attrs cs =>
    resolve_relative_resource_urls
      (remove_empty_children (remove_attributes_from_html_tags (.elem tag attrs cs)))

mutual
/-- The node itself together with all of its descendants, in document order. -/
def Node.subs : Node → List Node
  | .text s => [.text s]
  | .elem tag attrs cs => .elem tag attrs cs :: NodeList.subsList cs
def NodeList.subsList : NodeList → List Node
  | .nil => []
  | .cons n ns => n.subs ++ NodeList.subsList ns
end

/-- The proper descendants of a node (BS4 `tag.descendants`). -/
def Node.strictSubs : Node → List Node
  | .text _ => []
  | .elem _ _ cs => NodeList.subsList cs

/-! ## Invariant predicates used by the theorems -/

/-- Every key of the mapping is in the allow-list. -/
def attrsAllowed (attrs : List (String × String)) : Bool :=
  attrs.all (fun kv => allowed_attributes.contains kv.1)

mutual
/-- Every attribute key in the subtree is in the allow-list. -/
def Node.goodAttrs : Node → Bool
  | .text _ => true
  | .elem _ attrs cs => attrsAllowed attrs && NodeList.goodAttrsList cs
def NodeList.goodAttrsList : NodeList → Bool
  | .nil => true
  | .cons n ns => n.goodAttrs && NodeList.goodAttrsList ns
end

mutual
/-- No proper descendant of the node is an empty-text anchor. -/
def Node.noEmptyAnchorBelow : Node → Bool
  | .text _ => true
  | .elem _ _ cs => NodeList.noEmptyAnchorBelowList cs
def NodeList.noEmptyAnchorBelowList : NodeList → Bool
  | .nil => true
  | .cons n ns =>
    !n.isEmptyAnchor && n.noEmptyAnchorBelow && NodeList.noEmptyAnchorBelowList ns
end

/-- The URL-bearing attribute relevant to this tag, if any, already has a
protocol, so the resolution pass leaves the node unchanged. -/
def resolvedAttrs (tag : String) (attrs : List (String × String)) : Bool :=
  if tag == "a" then
    match getAttr attrs "href" with
    | some v => has_url_protocol v
    | none => true
  else if tag == "img" then
    match getAttr attrs "src" with
    | some v => has_url_protocol v
    | none => true
  else if tag == "object" then
    match getAttr attrs "data" with
    | some v => has_url_protocol v
    | none => true
  else true

mutual
/-- Every node of the subtree satisfies `resolvedAttrs`. -/
def Node.urlsResolved : Node → Bool
  | .text _ => true
  | .elem tag attrs cs => resolvedAttrs tag attrs && NodeList.urlsResolvedList cs
def NodeList.urlsResolvedList : NodeList → Bool
  | .nil => true
  | .cons n ns => n.urlsResolved && NodeList.urlsResolvedList ns
end

/-! ## Mutual induction principle for the tree -/

/-- Mutual structural induction over `Node` and `NodeList`. -/
theorem Node.mutualInduction (P : Node → Prop) (Q : NodeList → Prop)
    (htext : ∀ s, P (.text s))
    (helem : ∀ tag attrs cs, Q cs → P (.elem tag attrs cs))
    (hnil : Q .nil)
    (hcons : ∀ n ns, P n → Q ns → Q (.cons n ns)) :
    (∀ n, P n) ∧ (∀ ns, Q ns) :=
  ⟨fun n => @Node.rec P Q htext helem hnil hcons n,
   fun ns => @NodeList.rec P Q htext helem hnil hcons ns⟩

/-- `subs` lists the node itself followed by its proper descendants. -/
theorem Node.subs_eq (n : Node) : n.subs = n :: n.strictSubs := by
  cases n <;> rfl

/-! ## Attribute-mapping lemmas -/

theorem getAttr_setAttr_self (key value : String) :
    ∀ attrs : List (String × String), getAttr (setAttr attrs key value) key = some value := by
  intro attrs
  induction attrs with
  | nil => simp [setAttr, getAttr]
  | cons kv rest ih =>
    obtain ⟨k, v⟩ := kv
    by_cases h : k == key
    · simp [setAttr, getAttr, h]
    · simp only [setAttr, h]
      simp [getAttr, h, ih]

theorem getAttr_setAttr_ne (key key2 value : String) (hne : (key == key2) = false) :
    ∀ attrs : List (String × String),
      getAttr (setAttr attrs key value) key2 = getAttr attrs key2 := by
  intro attrs
  induction attrs with
  | nil => simp [setAttr, getAttr, hne]
  | cons kv rest ih =>
    obtain ⟨k, v⟩ := kv
    by_cases h : k == key
    · have hk : k = key := eq_of_beq h
      subst hk
      simp [setAttr, getAttr, hne]
    · simp only [setAttr, h]
      simp only [getAttr]
      by_cases h2 : k == key2 <;> simp [h2, ih]

theorem getAttr_clean_tag (key : String) (hk : key ∈ allowed_attributes) :
    ∀ attrs : List (String × String),
      getAttr (clean_tag_attributes attrs) key = getAttr attrs key := by
  intro attrs
  induction attrs with
  | nil => rfl
  | cons kv rest ih =>
    simp only [clean_tag_attributes] at ih ⊢
    obtain ⟨k, v⟩ := kv
    by_cases h : k == key
    · have hkk : k = key := eq_of_beq h
      subst hkk
      simp [List.filter_cons, getAttr, hk, ih]
    · by_cases h2 : k ∈ allowed_attributes <;>
      · simp [List.filter_cons, getAttr, h, h2]
        simpa using ih

theorem attrsAllowed_clean_tag (attrs : List (String × String)) :
    attrsAllowed (clean_tag_attributes attrs) = true := by
  simp only [attrsAllowed, List.all_eq_true]
  intro kv hkv
  exact (List.mem_filter.mp hkv).2

theorem clean_tag_attributes_of_allowed (attrs : List (String × String))
    (h : attrsAllowed attrs = true) : clean_tag_attributes attrs = attrs := by
  apply List.filter_eq_self.mpr
  simpa only [attrsAllowed, List.all_eq_true] using h

/-! ## String lemmas: split field count, protocol prefixes -/

theorem splitCharAux_snd_length (sep : Char) :
    ∀ s : List Char, ((splitCharAux sep s).2).length = s.count sep := by
  intro s
  induction s with
  | nil => rfl
  | cons c rest ih =>
    simp only [splitCharAux, List.count_cons]
    by_cases h : c == sep <;> simp [h, ih]

theorem splitChar_length (sep : Char) (s : List Char) :
    (splitChar sep s).length = s.count sep + 1 := by
  simp [splitChar, splitCharAux_snd_length]

theorem listStartsWith_append (p : List Char) :
    ∀ s t : List Char, listStartsWith p s = true → listStartsWith p (s ++ t) = true := by
  induction p with
  | nil => intro s t _; rfl
  | cons c cs ih =>
    intro s t h
    cases s with
    | nil => cases h
    | cons d ds =>
      simp only [listStartsWith, Bool.and_eq_true] at h
      simp only [List.cons_append, listStartsWith, Bool.and_eq_true]
      exact ⟨h.1, ih ds t h.2⟩

theorem has_url_protocol_base_long (loc : String) :
    has_url_protocol (BASE_DICOM_URL ++ loc) = true := by
  have h : listStartsWith "http".data BASE_DICOM_URL.data = true := by decide
  have hd : (BASE_DICOM_URL ++ loc).data = BASE_DICOM_URL.data ++ loc.data := rfl
  simp [has_url_protocol, hd, listStartsWith_append _ _ _ h]

theorem has_url_protocol_base_short (loc : String) :
    has_url_protocol (BASE_SHORT_DICOM_SECTION_URL ++ loc) = true := by
  have h : listStartsWith "http".data BASE_SHORT_DICOM_SECTION_URL.data = true := by decide
  have hd : (BASE_SHORT_DICOM_SECTION_URL ++ loc).data
      = BASE_SHORT_DICOM_SECTION_URL.data ++ loc.data := rfl
  simp [has_url_protocol, hd, listStartsWith_append _ _ _ h]

theorem has_url_protocol_resolve (href url : String)
    (h : resolve_href_url href = some url) : has_url_protocol url = true := by
  unfold resolve_href_url at h
  split at h
  · rcases Option.map_eq_some'.mp h with ⟨loc, _, heq⟩
    rw [← heq]
    exact has_url_protocol_base_short loc
  · rcases Option.map_eq_some'.mp h with ⟨loc, _, heq⟩
    rw [← heq]
    exact has_url_protocol_base_long loc

theorem resolve_href_url_none_of_hash_count (href : String)
    (h : countChar '#' href ≠ 1) : resolve_href_url href = none := by
  have hcount : href.data.count '#' ≠ 1 := h
  have hlen : ((splitChar '#' href.data).map String.mk).length ≠ 2 := by
    rw [List.length_map, splitChar_length]
    omega
  unfold resolve_href_url get_short_html_location get_long_html_location
  rcases hm : (splitChar '#' href.data).map String.mk with _ | ⟨a, _ | ⟨b, _ | ⟨c, l⟩⟩⟩
  · split <;> rfl
  · split <;> rfl
  · rw [hm] at hlen; simp at hlen
  · split <;> rfl

/-! ## Lemmas about the attribute-removal pass -/

theorem goodAttrs_remove_attributes :
    (∀ n : Node, (remove_attributes_from_html_tags n).goodAttrs = true) ∧
    (∀ ns : NodeList, (cleanAttrsList ns).goodAttrsList = true) := by
  refine Node.mutualInduction _ _ ?_ ?_ ?_ ?_
  · intro s; rfl
  · intro tag attrs cs ih
    simp [remove_attributes_from_html_tags, Node.goodAttrs, attrsAllowed_clean_tag, ih]
  · rfl
  · intro n ns h1 h2
    simp [cleanAttrsList, NodeList.goodAttrsList, h1, h2]

theorem remove_attributes_id :
    (∀ n : Node, n.goodAttrs = true → remove_attributes_from_html_tags n = n) ∧
    (∀ ns : NodeList, ns.goodAttrsList = true → cleanAttrsList ns = ns) := by
  refine Node.mutualInduction _ _ ?_ ?_ ?_ ?_
  · intro s _; rfl
  · intro tag attrs cs ih h
    simp only [Node.goodAttrs, Bool.and_eq_true] at h
    simp [remove_attributes_from_html_tags, clean_tag_attributes_of_allowed attrs h.1, ih h.2]
  · intro _; rfl
  · intro n ns h1 h2 h
    simp only [NodeList.goodAttrsList, Bool.and_eq_true] at h
    simp [cleanAttrsList, h1 h.1, h2 h.2]

theorem textChars_remove_attributes :
    (∀ n : Node, (remove_attributes_from_html_tags n).textChars = n.textChars) ∧
    (∀ ns : NodeList, (cleanAttrsList ns).textCharsList = ns.textCharsList) := by
  refine Node.mutualInduction _ _ ?_ ?_ ?_ ?_
  · intro s; rfl
  · intro tag attrs cs ih
    simp [remove_attributes_from_html_tags, Node.textChars, ih]
  · rfl
  · intro n ns h1 h2
    simp [cleanAttrsList, NodeList.textCharsList, h1, h2]

theorem isEmptyAnchor_remove_attributes (n : Node) :
    (remove_attributes_from_html_tags n).isEmptyAnchor = n.isEmptyAnchor := by
  cases n with
  | text s => rfl
  | elem tag attrs cs =>
    simp [remove_attributes_from_html_tags, Node.isEmptyAnchor, textChars_remove_attributes.2]

theorem noEmpty_remove_attributes :
    (∀ n : Node,
      (remove_attributes_from_html_tags n).noEmptyAnchorBelow = n.noEmptyAnchorBelow) ∧
    (∀ ns : NodeList,
      (cleanAttrsList ns).noEmptyAnchorBelowList = ns.noEmptyAnchorBelowList) := by
  refine Node.mutualInduction _ _ ?_ ?_ ?_ ?_
  · intro s; rfl
  · intro tag attrs cs ih
    simp [remove_attributes_from_html_tags, Node.noEmptyAnchorBelow, ih]
  · rfl
  · intro n ns h1 h2
    simp [cleanAttrsList, NodeList.noEmptyAnchorBelowList, h1, h2,
      isEmptyAnchor_remove_attributes]

theorem resolvedAttrs_clean_tag (tag : String) (attrs : List (String × String)) :
    resolvedAttrs tag (clean_tag_attributes attrs) = resolvedAttrs tag attrs := by
  unfold resolvedAttrs
  rw [getAttr_clean_tag "href" (by decide), getAttr_clean_tag "src" (by decide),
    getAttr_clean_tag "data" (by decide)]

theorem urlsResolved_remove_attributes :
    (∀ n : Node, n.urlsResolved = true →
      (remove_attributes_from_html_tags n).urlsResolved = true) ∧
    (∀ ns : NodeList, ns.urlsResolvedList = true →
      (cleanAttrsList ns).urlsResolvedList = true) := by
  refine Node.mutualInduction _ _ ?_ ?_ ?_ ?_
  · intro s _; rfl
  · intro tag attrs cs ih h
    simp only [Node.urlsResolved, Bool.and_eq_true] at h
    simp [remove_attributes_from_html_tags, Node.urlsResolved, resolvedAttrs_clean_tag,
      h.1, ih h.2]
  · intro _; rfl
  · intro n ns h1 h2 h
    simp only [NodeList.urlsResolvedList, Bool.and_eq_true] at h
    simp [cleanAttrsList, NodeList.urlsResolvedList, h1 h.1, h2 h.2]

/-! ## Lemmas about the empty-anchor-removal pass -/

theorem textChars_of_isEmptyAnchor (n : Node) (h : n.isEmptyAnchor = true) :
    n.textChars = [] := by
  cases n with
  | text s => cases h
  | elem tag attrs cs =>
    simp only [Node.isEmptyAnchor, Bool.and_eq_true] at h
    simpa [Node.textChars, List.isEmpty_iff] using h.2

theorem textChars_remove_empty :
    (∀ n : Node, (remove_empty_children n).textChars = n.textChars) ∧
    (∀ ns : NodeList, (removeEmptyList ns).textCharsList = ns.textCharsList) := by
  refine Node.mutualInduction _ _ ?_ ?_ ?_ ?_
  · intro s; rfl
  · intro tag attrs cs ih
    simp [remove_empty_children, Node.textChars, ih]
  · rfl
  · intro n ns h1 h2
    cases h : n.isEmptyAnchor
    · simp [removeEmptyList, h, NodeList.textCharsList, h1, h2]
    · simp [removeEmptyList, h, NodeList.textCharsList, h2, textChars_of_isEmptyAnchor n h]

theorem isEmptyAnchor_remove_empty (n : Node) :
    (remove_empty_children n).isEmptyAnchor = n.isEmptyAnchor := by
  cases n with
  | text s => rfl
  | elem tag attrs cs =>
    simp [remove_empty_children, Node.isEmptyAnchor, textChars_remove_empty.2]

theorem noEmpty_after_remove_empty :
    (∀ n : Node, (remove_empty_children n).noEmptyAnchorBelow = true) ∧
    (∀ ns : NodeList, (removeEmptyList ns).noEmptyAnchorBelowList = true) := by
  refine Node.mutualInduction _ _ ?_ ?_ ?_ ?_
  · intro s; rfl
  · intro tag attrs cs ih
    simp [remove_empty_children, Node.noEmptyAnchorBelow, ih]
  · rfl
  · intro n ns h1 h2
    cases h : n.isEmptyAnchor
    · simp [removeEmptyList, h, NodeList.noEmptyAnchorBelowList, h1, h2,
        isEmptyAnchor_remove_empty]
    · simp [removeEmptyList, h, h2]

theorem remove_empty_id :
    (∀ n : Node, n.noEmptyAnchorBelow = true → remove_empty_children n = n) ∧
    (∀ ns : NodeList, ns.noEmptyAnchorBelowList = true → removeEmptyList ns = ns) := by
  refine Node.mutualInduction _ _ ?_ ?_ ?_ ?_
  · intro s _; rfl
  · intro tag attrs cs ih h
    simp only [Node.noEmptyAnchorBelow] at h
    simp [remove_empty_children, ih h]
  · intro _; rfl
  · intro n ns h1 h2 h
    simp only [NodeList.noEmptyAnchorBelowList, Bool.and_eq_true, Bool.not_eq_true'] at h
    simp [removeEmptyList, h.1.1, h1 h.1.2, h2 h.2]

theorem urlsResolved_remove_empty :
    (∀ n : Node, n.urlsResolved = true → (remove_empty_children n).urlsResolved = true) ∧
    (∀ ns : NodeList, ns.urlsResolvedList = true →
      (removeEmptyList ns).urlsResolvedList = true) := by
  refine Node.mutualInduction _ _ ?_ ?_ ?_ ?_
  · intro s _; rfl
  · intro tag attrs cs ih h
    simp only [Node.urlsResolved, Bool.and_eq_true] at h
    simp [remove_empty_children, Node.urlsResolved, h.1, ih h.2]
  · intro _; rfl
  · intro n ns h1 h2 h
    simp only [NodeList.urlsResolvedList, Bool.and_eq_true] at h
    cases hn : n.isEmptyAnchor
    · simp [removeEmptyList, hn, NodeList.urlsResolvedList, h1 h.1, h2 h.2]
    · simp [removeEmptyList, hn, h2 h.2]

/-! ## Lemmas about the URL-resolution pass -/

theorem resolveTagNode_resolved (tag : String) (attrs : List (String × String))
    (cs : NodeList) (m : Node) (h : resolveTagNode tag attrs cs = some m) :
    ∃ attrs2, m = .elem tag attrs2 cs ∧ resolvedAttrs tag attrs2 = true := by
  unfold resolveTagNode at h
  by_cases h1 : (tag == "a" && (getAttr attrs "href").isSome) = true
  · rw [if_pos h1] at h
    simp only [Bool.and_eq_true] at h1
    simp only [update_anchor_href] at h
    split at h
    · exact Option.noConfusion h
    · rename_i href hh
      by_cases hp : has_url_protocol href = true
      · rw [if_pos hp] at h
        injection h with h
        refine ⟨attrs, h.symm, ?_⟩
        simp [resolvedAttrs, h1.1, hh, hp]
      · rw [if_neg hp] at h
        split at h
        · exact Option.noConfusion h
        · rename_i url hr
          injection h with h
          refine ⟨_, h.symm, ?_⟩
          have hg : getAttr (setAttr (setAttr attrs "href" url) "target" "_blank") "href"
              = some url := by
            rw [getAttr_setAttr_ne "target" "href" _ (by decide), getAttr_setAttr_self]
          simp [resolvedAttrs, h1.1, hg, has_url_protocol_resolve href url hr]
  · rw [if_neg h1] at h
    by_cases h2 : (tag == "img" && (getAttr attrs "src").isSome) = true
    · rw [if_pos h2] at h
      simp only [Bool.and_eq_true] at h2
      have htag : tag = "img" := eq_of_beq h2.1
      subst htag
      simp only [resolve_resource] at h
      split at h
      · exact Option.noConfusion h
      · rename_i v hh
        by_cases hp : has_url_protocol v = true
        · rw [if_pos hp] at h
          injection h with h
          refine ⟨attrs, h.symm, ?_⟩
          simp [resolvedAttrs, hh, hp]
        · rw [if_neg hp] at h
          injection h with h
          refine ⟨_, h.symm, ?_⟩
          simp [resolvedAttrs, getAttr_setAttr_self, has_url_protocol_base_long]
    · rw [if_neg h2] at h
      by_cases h3 : (tag == "object" && (getAttr attrs "data").isSome) = true
      · rw [if_pos h3] at h
        simp only [Bool.and_eq_true] at h3
        have htag : tag = "object" := eq_of_beq h3.1
        subst htag
        simp only [resolve_resource] at h
        split at h
        · exact Option.noConfusion h
        · rename_i v hh
          by_cases hp : has_url_protocol v = true
          · rw [if_pos hp] at h
            injection h with h
            refine ⟨attrs, h.symm, ?_⟩
            simp [resolvedAttrs, hh, hp]
          · rw [if_neg hp] at h
            injection h with h
            refine ⟨_, h.symm, ?_⟩
            simp [resolvedAttrs, getAttr_setAttr_self, has_url_protocol_base_long]
      · rw [if_neg h3] at h
        injection h with h
        refine ⟨attrs, h.symm, ?_⟩
        simp only [Bool.and_eq_true, not_and] at h1 h2 h3
        unfold resolvedAttrs
        by_cases ha : (tag == "a") = true
        · rw [if_pos ha]
          cases hh : getAttr attrs "href" with
          | none => rfl
          | some v => exact absurd (by simp [hh]) (h1 ha)
        · rw [if_neg ha]
          by_cases hi : (tag == "img") = true
          · rw [if_pos hi]
            cases hh : getAttr attrs "src" with
            | none => rfl
            | some v => exact absurd (by simp [hh]) (h2 hi)
          · rw [if_neg hi]
            by_cases ho : (tag == "object") = true
            · rw [if_pos ho]
              cases hh : getAttr attrs "data" with
              | none => rfl
              | some v => exact absurd (by simp [hh]) (h3 ho)
            · rw [if_neg ho]

theorem resolveTagNode_of_resolved (tag : String) (attrs : List (String × String))
    (cs : NodeList) (h : resolvedAttrs tag attrs = true) :
    resolveTagNode tag attrs cs = some (.elem tag attrs cs) := by
  unfold resolvedAttrs at h
  unfold resolveTagNode
  by_cases ha : (tag == "a") = true
  · rw [if_pos ha] at h
    have htag : tag = "a" := eq_of_beq ha
    subst htag
    cases hh : getAttr attrs "href" with
    | none => simp [hh]
    | some href =>
      have hp : has_url_protocol href = true := by rw [hh] at h; exact h
      simp [hh, update_anchor_href, hp]
  · rw [if_neg ha] at h
    by_cases hi : (tag == "img") = true
    · rw [if_pos hi] at h
      have htag : tag = "img" := eq_of_beq hi
      subst htag
      cases hh : getAttr attrs "src" with
      | none => simp [hh]
      | some v =>
        have hp : has_url_protocol v = true := by rw [hh] at h; exact h
        simp [hh, resolve_resource, hp]
    · rw [if_neg hi] at h
      by_cases ho : (tag == "object") = true
      · rw [if_pos ho] at h
        have htag : tag = "object" := eq_of_beq ho
        subst htag
        cases hh : getAttr attrs "data" with
        | none => simp [hh]
        | some v =>
          have hp : has_url_protocol v = true := by rw [hh] at h; exact h
          simp [hh, resolve_resource, hp]
      · simp [ha, hi, ho]

theorem resolve_urls_resolved :
    (∀ n : Node, ∀ m : Node,
      resolve_relative_resource_urls n = some m → m.urlsResolved = true) ∧
    (∀ ns : NodeList, ∀ ms : NodeList,
      resolveUrlsList ns = some ms → ms.urlsResolvedList = true) := by
  refine Node.mutualInduction _ _ ?_ ?_ ?_ ?_
  · intro s m h
    injection h with h
    rw [← h]; rfl
  · intro tag attrs cs ih m h
    simp only [resolve_relative_resource_urls] at h
    cases hcs : resolveUrlsList cs with
    | none => rw [hcs] at h; exact Option.noConfusion h
    | some cs2 =>
      rw [hcs] at h
      obtain ⟨attrs2, rfl, hres⟩ := resolveTagNode_resolved _ _ _ _ h
      simp [Node.urlsResolved, hres, ih cs2 hcs]
  · intro ms h
    injection h with h
    rw [← h]; rfl
  · intro n ns ihn ihns ms h
    simp only [resolveUrlsList] at h
    cases hn : resolve_relative_resource_urls n with
    | none => rw [hn] at h; exact Option.noConfusion h
    | some n2 =>
      cases hns : resolveUrlsList ns with
      | none => rw [hn, hns] at h; exact Option.noConfusion h
      | some ns2 =>
        rw [hn, hns] at h
        injection h with h
        rw [← h]
        simp [NodeList.urlsResolvedList, ihn n2 hn, ihns ns2 hns]

theorem resolve_of_resolved :
    (∀ n : Node, n.urlsResolved = true → resolve_relative_resource_urls n = some n) ∧
    (∀ ns : NodeList, ns.urlsResolvedList = true → resolveUrlsList ns = some ns) := by
  refine Node.mutualInduction _ _ ?_ ?_ ?_ ?_
  · intro s _; rfl
  · intro tag attrs cs ih h
    simp only [Node.urlsResolved, Bool.and_eq_true] at h
    simp only [resolve_relative_resource_urls]
    rw [ih h.2]
    exact resolveTagNode_of_resolved tag attrs cs h.1
  · intro _; rfl
  · intro n ns ihn ihns h
    simp only [NodeList.urlsResolvedList, Bool.and_eq_true] at h
    simp only [resolveUrlsList]
    rw [ihn h.1, ihns h.2]

theorem resolve_preserves_shape :
    (∀ n : Node, ∀ m : Node, resolve_relative_resource_urls n = some m →
      m.textChars = n.textChars ∧ m.isEmptyAnchor = n.isEmptyAnchor ∧
      m.noEmptyAnchorBelow = n.noEmptyAnchorBelow) ∧
    (∀ ns : NodeList, ∀ ms : NodeList, resolveUrlsList ns = some ms →
      ms.textCharsList = ns.textCharsList ∧
      ms.noEmptyAnchorBelowList = ns.noEmptyAnchorBelowList) := by
  refine Node.mutualInduction _ _ ?_ ?_ ?_ ?_
  · intro s m h
    injection h with h
    rw [← h]
    exact ⟨rfl, rfl, rfl⟩
  · intro tag attrs cs ih m h
    simp only [resolve_relative_resource_urls] at h
    cases hcs : resolveUrlsList cs with
    | none => rw [hcs] at h; exact Option.noConfusion h
    | some cs2 =>
      rw [hcs] at h
      obtain ⟨attrs2, rfl, _⟩ := resolveTagNode_resolved _ _ _ _ h
      obtain ⟨ht, hb⟩ := ih cs2 hcs
      refine ⟨?_, ?_, ?_⟩
      · simpa [Node.textChars] using ht
      · simp [Node.isEmptyAnchor, ht]
      · simpa [Node.noEmptyAnchorBelow] using hb
  · intro ms h
    injection h with h
    rw [← h]
    exact ⟨rfl, rfl⟩
  · intro n ns ihn ihns ms h
    simp only [resolveUrlsList] at h
    cases hn : resolve_relative_resource_urls n with
    | none => rw [hn] at h; exact Option.noConfusion h
    | some n2 =>
      cases hns : resolveUrlsList ns with
      | none => rw [hn, hns] at h; exact Option.noConfusion h
      | some ns2 =>
        rw [hn, hns] at h
        injection h with h
        rw [← h]
        obtain ⟨ht1, he1, hb1⟩ := ihn n2 hn
        obtain ⟨ht2, hb2⟩ := ihns ns2 hns
        constructor
        · simp [NodeList.textCharsList, ht1, ht2]
        · simp [NodeList.noEmptyAnchorBelowList, he1, hb1, ht2, hb2]

/-! ## Lemmas about `subs` (self plus descendants) -/

theorem subs_remove_attributes :
    (∀ n : Node, (remove_attributes_from_html_tags n).subs
      = n.subs.map remove_attributes_from_html_tags) ∧
    (∀ ns : NodeList, NodeList.subsList (cleanAttrsList ns)
      = (NodeList.subsList ns).map remove_attributes_from_html_tags) := by
  refine Node.mutualInduction _ _ ?_ ?_ ?_ ?_
  · intro s; rfl
  · intro tag attrs cs ih
    simp [remove_attributes_from_html_tags, Node.subs, ih]
  · rfl
  · intro n ns h1 h2
    simp [cleanAttrsList, NodeList.subsList, h1, h2]

theorem textChars_subs :
    (∀ n : Node, ∀ m ∈ n.subs, n.textChars = [] → m.textChars = []) ∧
    (∀ ns : NodeList, ∀ m ∈ NodeList.subsList ns,
      ns.textCharsList = [] → m.textChars = []) := by
  refine Node.mutualInduction _ _ ?_ ?_ ?_ ?_
  · intro s m hm h
    simp [Node.subs] at hm
    rw [hm]
    exact h
  · intro tag attrs cs ih m hm h
    simp only [Node.subs, List.mem_cons] at hm
    rcases hm with rfl | hm
    · exact h
    · exact ih m hm h
  · intro m hm _
    simp [NodeList.subsList] at hm
  · intro n ns ihn ihns m hm h
    simp only [NodeList.textCharsList, List.append_eq_nil] at h
    simp only [NodeList.subsList, List.mem_append] at hm
    rcases hm with hm | hm
    · exact ihn m hm h.1
    · exact ihns m hm h.2

theorem mem_subs_remove_empty :
    (∀ n : Node, ∀ m ∈ n.subs, m.textChars ≠ [] →
      remove_empty_children m ∈ (remove_empty_children n).subs) ∧
    (∀ ns : NodeList, ∀ m ∈ NodeList.subsList ns, m.textChars ≠ [] →
      remove_empty_children m ∈ NodeList.subsList (removeEmptyList ns)) := by
  refine Node.mutualInduction _ _ ?_ ?_ ?_ ?_
  · intro s m hm _
    simp [Node.subs] at hm
    rw [hm]
    simp [Node.subs, remove_empty_children]
  · intro tag attrs cs ih m hm hne
    simp only [Node.subs, List.mem_cons] at hm
    rcases hm with rfl | hm
    · simp [remove_empty_children, Node.subs]
    · have hrec := ih m hm hne
      simp only [remove_empty_children, Node.subs, List.mem_cons]
      exact Or.inr hrec
  · intro m hm _
    simp [NodeList.subsList] at hm
  · intro n ns ihn ihns m hm hne
    simp only [NodeList.subsList, List.mem_append] at hm
    rcases hm with hm | hm
    · have hn : n.textChars ≠ [] := fun h0 => hne (textChars_subs.1 n m hm h0)
      have hne2 : n.isEmptyAnchor = false := by
        cases hisn : n.isEmptyAnchor
        · rfl
        · exact absurd (textChars_of_isEmptyAnchor n hisn) hn
      simp only [removeEmptyList, hne2, Bool.false_eq_true, if_false,
        NodeList.subsList, List.mem_append]
      exact Or.inl (ihn m hm hne)
    · cases hisn : n.isEmptyAnchor
      · simp only [removeEmptyList, hisn, Bool.false_eq_true, if_false,
          NodeList.subsList, List.mem_append]
        exact Or.inr (ihns m hm hne)
      · simp only [removeEmptyList, hisn, if_true]
        exact ihns m hm hne

/-- Preservation of the root constructor by `remove_empty_children`. -/
theorem remove_empty_children_elem (tag : String) (attrs : List (String × String))
    (cs : NodeList) :
    remove_empty_children (.elem tag attrs cs) = .elem tag attrs (removeEmptyList cs) := rfl

/-- The resolution pass fails as soon as some node of the tree is an anchor
carrying an `href` without protocol on which `resolve_href_url` raises. -/
theorem resolve_fails_on_bad_anchor :
    (∀ n : Node, ∀ m ∈ n.subs, ∀ a2 cs2 v, m = Node.elem "a" a2 cs2 →
      getAttr a2 "href" = some v → has_url_protocol v = false →
      resolve_href_url v = none → resolve_relative_resource_urls n = none) ∧
    (∀ ns : NodeList, ∀ m ∈ NodeList.subsList ns, ∀ a2 cs2 v, m = Node.elem "a" a2 cs2 →
      getAttr a2 "href" = some v → has_url_protocol v = false →
      resolve_href_url v = none → resolveUrlsList ns = none) := by
  refine Node.mutualInduction _ _ ?_ ?_ ?_ ?_
  · intro s m hm a2 cs2 v hm2 _ _ _
    simp [Node.subs] at hm
    rw [hm] at hm2
    exact Node.noConfusion hm2
  · intro tag attrs cs ih m hm a2 cs2 v hm2 hg hp hr
    simp only [Node.subs, List.mem_cons] at hm
    rcases hm with rfl | hm
    · injection hm2 with h1 h2 h3
      subst h1; subst h2; subst h3
      simp only [resolve_relative_resource_urls]
      cases hcs : resolveUrlsList cs with
      | none => rfl
      | some cs3 =>
        have hsome : (getAttr attrs "href").isSome = true := by simp [hg]
        simp [resolveTagNode, hsome, update_anchor_href, hg, hp, hr]
    · have hrec := ih m hm a2 cs2 v hm2 hg hp hr
      simp only [resolve_relative_resource_urls]
      rw [hrec]
  · intro m hm a2 cs2 v _ _ _ _
    simp [NodeList.subsList] at hm
  · intro n ns ihn ihns m hm a2 cs2 v hm2 hg hp hr
    simp only [NodeList.subsList, List.mem_append] at hm
    rcases hm with hm | hm
    · have hrec := ihn m hm a2 cs2 v hm2 hg hp hr
      simp only [resolveUrlsList]
      rw [hrec]
    · have hrec := ihns m hm a2 cs2 v hm2 hg hp hr
      simp only [resolveUrlsList]
      rw [hrec]
      cases resolve_relative_resource_urls n <;> rfl

/-! ## Bridges from the recursive invariants to statements about `subs` -/

theorem attrsAllowed_of_goodAttrs :
    (∀ n : Node, n.goodAttrs = true → ∀ m ∈ n.subs, attrsAllowed m.attrsOf = true) ∧
    (∀ ns : NodeList, ns.goodAttrsList = true →
      ∀ m ∈ NodeList.subsList ns, attrsAllowed m.attrsOf = true) := by
  refine Node.mutualInduction _ _ ?_ ?_ ?_ ?_
  · intro s _ m hm
    simp [Node.subs] at hm
    rw [hm]; rfl
  · intro tag attrs cs ih h m hm
    simp only [Node.goodAttrs, Bool.and_eq_true] at h
    simp only [Node.subs, List.mem_cons] at hm
    rcases hm with rfl | hm
    · exact h.1
    · exact ih h.2 m hm
  · intro _ m hm
    simp [NodeList.subsList] at hm
  · intro n ns ihn ihns h m hm
    simp only [NodeList.goodAttrsList, Bool.and_eq_true] at h
    simp only [NodeList.subsList, List.mem_append] at hm
    rcases hm with hm | hm
    · exact ihn h.1 m hm
    · exact ihns h.2 m hm

theorem no_empty_anchor_of_noEmptyAnchorBelow :
    (∀ n : Node, n.noEmptyAnchorBelow = true →
      ∀ m ∈ n.strictSubs, m.isEmptyAnchor = false) ∧
    (∀ ns : NodeList, ns.noEmptyAnchorBelowList = true →
      ∀ m ∈ NodeList.subsList ns, m.isEmptyAnchor = false) := by
  refine Node.mutualInduction _ _ ?_ ?_ ?_ ?_
  · intro s _ m hm
    simp [Node.strictSubs] at hm
  · intro tag attrs cs ih h m hm
    simp only [Node.noEmptyAnchorBelow] at h
    simp only [Node.strictSubs] at hm
    exact ih h m hm
  · intro _ m hm
    simp [NodeList.subsList] at hm
  · intro n ns ihn ihns h m hm
    simp only [NodeList.noEmptyAnchorBelowList, Bool.and_eq_true, Bool.not_eq_true'] at h
    simp only [NodeList.subsList, List.mem_append] at hm
    rcases hm with hm | hm
    · rw [Node.subs_eq, List.mem_cons] at hm
      rcases hm with rfl | hm
      · exact h.1.1
      · exact ihn h.1.2 m hm
    · exact ihns h.2 m hm

theorem findIdx?_none_of_all_ne (x : String) :
    ∀ l : List String, (∀ s ∈ l, s ≠ x) → l.findIdx? (fun s => s == x) = none := by
  intro l
  induction l with
  | nil => intro _; rfl
  | cons b bs ih =>
    intro h
    have hb : (b == x) = false := by
      simp only [beq_eq_false_iff_ne]
      exact h b (List.mem_cons_self b bs)
    rw [List.findIdx?_cons]
    simp [hb, ih (fun s hs => h s (List.mem_cons_of_mem b hs))]

/-! ## Claim theorems -/

/-- C1 (counterexample): `resolve_href_url("#sect_10.2.1.3")` does not return
`BASE_SHORT_URL ++ "part03/10.2.html#sect_10.2.1.3"`: the components of
`sect_10.2.1.3` are `[sect_10, 2, 1, 3]`, so the page token kept before the
`1` is `sect_10.2`, not `10.2` (the `sect_` prefix is only replaced when a
single component remains, and it is replaced by `chapter_`, never dropped). -/
theorem c1_counterexample :
    resolve_href_url "#sect_10.2.1.3"
      ≠ some (BASE_SHORT_DICOM_SECTION_URL ++ "part03/10.2.html#sect_10.2.1.3") := by
  decide

/-- C1 (amended): `resolve_href_url("#sect_10.2.1.3")` yields the page token
`sect_10.2` (truncated at the `1` component, more than one component remains,
so no prefix replacement) and the full URL
`BASE_SHORT_URL ++ "part03/sect_10.2.html#sect_10.2.1.3"`. -/
theorem c1_amended :
    resolve_href_url "#sect_10.2.1.3"
      = some (BASE_SHORT_DICOM_SECTION_URL ++ "part03/sect_10.2.html#sect_10.2.1.3") := by
  decide

/-- C2 (counterexample): resource resolution is not unconditional: an image
`src` that already starts with `http` is left unchanged by
`resolve_resource`, and in particular is not `BASE_DICOM_URL` plus the
original value. -/
theorem c2_counterexample :
    resolve_resource "src" (Node.elem "img" [("src", "http://example.org/a.png")] .nil)
      = some (Node.elem "img" [("src", "http://example.org/a.png")] .nil) ∧
    BASE_DICOM_URL ++ "http://example.org/a.png" ≠ "http://example.org/a.png" :=
  ⟨by decide, by decide⟩

/-- C2 (amended): for every image `src` or embedded-object `data` attribute
whose value does not start with `http` or `ftp`, `resolve_resource` rewrites
the value to exactly `BASE_DICOM_URL` concatenated with the original value,
with no truncation and no classification; protocol-prefixed values are left
unchanged (the code does check the protocol prefix). -/
theorem c2_amended (tag : String) (attrs : List (String × String)) (cs : NodeList)
    (u v : String) (hu : getAttr attrs u = some v)
    (hp : has_url_protocol v = false) :
    resolve_resource u (Node.elem tag attrs cs)
      = some (Node.elem tag (setAttr attrs u (BASE_DICOM_URL ++ v)) cs) := by
  simp [resolve_resource, hu, hp]

/-- C2 witness: the amended claim at a concrete relative image source. -/
theorem c2_witness :
    resolve_resource "src" (Node.elem "img" [("src", "figures/fig1.png")] .nil)
      = some (Node.elem "img" [("src", BASE_DICOM_URL ++ "figures/fig1.png")] .nil) :=
  c2_amended "img" [("src", "figures/fig1.png")] NodeList.nil "src" "figures/fig1.png"
    rfl (by decide)

/-- C3 (counterexample): the HTML cleaner is not idempotent.  On the fragment
`<a href="#sect_1">x</a>` the first application resolves the href and appends
`target="_blank"`; the second application strips `target` (it is not in the
attribute allow-list), so the two outputs differ. -/
theorem c3_counterexample :
    (clean_html (Node.elem "a" [("href", "#sect_1")] (.cons (.text "x") .nil))).isSome
        = true ∧
    (clean_html (Node.elem "a" [("href", "#sect_1")] (.cons (.text "x") .nil))).bind
        clean_html
      ≠ clean_html (Node.elem "a" [("href", "#sect_1")] (.cons (.text "x") .nil)) :=
  ⟨by decide, by decide⟩

/-- C3 (amended): `clean_html ∘ clean_html` is idempotent: whenever two
successive applications of `clean_html` succeed, the second output is a fixed
point of `clean_html`.  (A single application need not be a fixed point: it
may append `target="_blank"` attributes, which the next application's
attribute filter removes.) -/
theorem c3_amended (t o1 o2 : Node) (h1 : clean_html t = some o1)
    (h2 : clean_html o1 = some o2) : clean_html o2 = some o2 := by
  cases t with
  | text s => exact Option.noConfusion h1
  | elem tag attrs cs =>
    simp only [clean_html] at h1
    have hres1 : o1.urlsResolved = true := resolve_urls_resolved.1 _ o1 h1
    have hne1 : o1.noEmptyAnchorBelow = true := by
      rw [(resolve_preserves_shape.1 _ o1 h1).2.2]
      exact noEmpty_after_remove_empty.1 _
    cases o1 with
    | text s1 => exact Option.noConfusion h2
    | elem tag1 attrs1 cs1 =>
      simp only [clean_html] at h2
      have hgood2 : (remove_attributes_from_html_tags
          (Node.elem tag1 attrs1 cs1)).goodAttrs = true :=
        goodAttrs_remove_attributes.1 _
      have hne2 : (remove_attributes_from_html_tags
          (Node.elem tag1 attrs1 cs1)).noEmptyAnchorBelow = true := by
        rw [noEmpty_remove_attributes.1]
        exact hne1
      have hres2 : (remove_attributes_from_html_tags
          (Node.elem tag1 attrs1 cs1)).urlsResolved = true :=
        urlsResolved_remove_attributes.1 _ hres1
      rw [remove_empty_id.1 _ hne2, resolve_of_resolved.1 _ hres2] at h2
      injection h2 with h2
      rw [← h2]
      simp only [remove_attributes_from_html_tags] at hgood2 hne2 hres2 ⊢
      simp only [clean_html]
      rw [remove_attributes_id.1 _ hgood2, remove_empty_id.1 _ hne2]
      exact resolve_of_resolved.1 _ hres2

/-- C3 witness: the fixed-point chain at the concrete fragment
`<a href="#sect_1">x</a>`. -/
theorem c3_witness :
    clean_html (Node.elem "a" [("href", "#sect_1")] (.cons (.text "x") .nil))
      = some (Node.elem "a"
          [("href",
            "http://dicom.nema.org/medical/dicom/current/output/chtml/part03/sect_1.html#sect_1"),
           ("target", "_blank")] (.cons (.text "x") .nil)) ∧
    clean_html (Node.elem "a"
          [("href",
            "http://dicom.nema.org/medical/dicom/current/output/chtml/part03/sect_1.html#sect_1"),
           ("target", "_blank")] (.cons (.text "x") .nil))
      = some (Node.elem "a"
          [("href",
            "http://dicom.nema.org/medical/dicom/current/output/chtml/part03/sect_1.html#sect_1")]
          (.cons (.text "x") .nil)) ∧
    clean_html (Node.elem "a"
          [("href",
            "http://dicom.nema.org/medical/dicom/current/output/chtml/part03/sect_1.html#sect_1")]
          (.cons (.text "x") .nil))
      = some (Node.elem "a"
          [("href",
            "http://dicom.nema.org/medical/dicom/current/output/chtml/part03/sect_1.html#sect_1")]
          (.cons (.text "x") .nil)) :=
  ⟨by decide, by decide,
   c3_amended (Node.elem "a" [("href", "#sect_1")] (.cons (.text "x") .nil))
     (Node.elem "a"
       [("href",
         "http://dicom.nema.org/medical/dicom/current/output/chtml/part03/sect_1.html#sect_1"),
        ("target", "_blank")] (.cons (.text "x") .nil))
     (Node.elem "a"
       [("href",
         "http://dicom.nema.org/medical/dicom/current/output/chtml/part03/sect_1.html#sect_1")]
       (.cons (.text "x") .nil))
     (by decide) (by decide)⟩

/-- C4: after the attribute-removal pass, every attribute key present
anywhere in the subtree (the root included) is one of `href`, `src`, `type`,
`data`, `colspan`, `rowspan`. -/
theorem c4_sanitizer_allowlist (n m : Node)
    (hm : m ∈ (remove_attributes_from_html_tags n).subs)
    (kv : String × String) (hkv : kv ∈ m.attrsOf) :
    kv.1 ∈ allowed_attributes := by
  have h := attrsAllowed_of_goodAttrs.1 _ (goodAttrs_remove_attributes.1 n) m hm
  simp only [attrsAllowed, List.all_eq_true] at h
  simpa using h kv hkv

/-- C4 witness: the invariant at a concrete tag carrying one allowed and one
disallowed attribute. -/
theorem c4_witness :
    (Node.elem "a" [("href", "x")] NodeList.nil)
      ∈ (remove_attributes_from_html_tags
          (Node.elem "a" [("href", "x"), ("class", "y")] NodeList.nil)).subs ∧
    ("href", "x") ∈ (Node.elem "a" [("href", "x")] NodeList.nil).attrsOf ∧
    "href" ∈ allowed_attributes :=
  ⟨by decide, by decide,
   c4_sanitizer_allowlist (Node.elem "a" [("href", "x"), ("class", "y")] NodeList.nil)
     (Node.elem "a" [("href", "x")] NodeList.nil) (by decide) ("href", "x") (by decide)⟩

/-- C5 (counterexample): an empty anchor is not removed from everywhere in
the subtree: `find_all` never returns the top-level tag itself, so when the
subtree root is itself an anchor with empty text it survives sanitization. -/
theorem c5_counterexample :
    remove_empty_children (remove_attributes_from_html_tags (Node.elem "a" [] .nil))
      = Node.elem "a" [] .nil ∧
    (Node.elem "a" [] .nil) ∈ (Node.elem "a" [] NodeList.nil).subs ∧
    (Node.elem "a" [] .nil).isEmptyAnchor = true :=
  ⟨by decide, by decide, by decide⟩

/-- C5 (amended): after sanitization no proper descendant of the top-level
tag is an anchor with empty text content (this covers empty anchors that
were ancestors of other empty anchors); only the top-level tag itself is
exempt, since `find_all` searches descendants only. -/
theorem c5_amended (n m : Node)
    (hm : m ∈ (remove_empty_children (remove_attributes_from_html_tags n)).strictSubs) :
    m.isEmptyAnchor = false :=
  no_empty_anchor_of_noEmptyAnchorBelow.1 _ (noEmpty_after_remove_empty.1 _) m hm

/-- C5 witness: the amended claim at a concrete fragment with a nested empty
anchor. -/
theorem c5_witness :
    (Node.text "x") ∈ (remove_empty_children (remove_attributes_from_html_tags
        (Node.elem "p" [] (.cons (Node.elem "a" [] .nil)
          (.cons (.text "x") .nil))))).strictSubs ∧
    (Node.text "x").isEmptyAnchor = false :=
  ⟨by decide,
   c5_amended (Node.elem "p" [] (.cons (Node.elem "a" [] .nil) (.cons (.text "x") .nil)))
     (Node.text "x") (by decide)⟩

/-- C6: a reference value that already starts with `http` or `ftp` is left
unchanged by the URL-resolution pass: `resolve_resource` returns the node
untouched, and so does `update_anchor_href` when the attribute is `href`. -/
theorem c6_protocol_prefixed_unchanged (tag : String)
    (attrs : List (String × String)) (cs : NodeList) (u v : String)
    (hu : getAttr attrs u = some v) (hp : has_url_protocol v = true) :
    resolve_resource u (Node.elem tag attrs cs) = some (Node.elem tag attrs cs) ∧
    (u = "href" → update_anchor_href (Node.elem tag attrs cs)
        = some (Node.elem tag attrs cs)) := by
  constructor
  · simp [resolve_resource, hu, hp]
  · intro h
    subst h
    simp [update_anchor_href, hu, hp]

/-- C6 witness: an anchor href with an `http` protocol is untouched. -/
theorem c6_witness :
    resolve_resource "href" (Node.elem "a" [("href", "http://example.org/p")] NodeList.nil)
      = some (Node.elem "a" [("href", "http://example.org/p")] NodeList.nil) ∧
    ("href" = "href" → update_anchor_href
          (Node.elem "a" [("href", "http://example.org/p")] NodeList.nil)
        = some (Node.elem "a" [("href", "http://example.org/p")] NodeList.nil)) :=
  c6_protocol_prefixed_unchanged "a" [("href", "http://example.org/p")] NodeList.nil
    "href" "http://example.org/p" rfl (by decide)

/-- C7: `clean_table_name` on `"1" ++ nbsp ++ "" ++ nbsp ++ "Some Title
Module Attributes"` takes the third component, cuts at the recognised
`Module Attributes` suffix, trims, and returns `"Some Title"`. -/
theorem c7_clean_table_name_example :
    clean_table_name "1\u00A0\u00A0Some Title Module Attributes" = some "Some Title" := by
  decide

/-- C8: `clean_table_name` succeeds exactly on inputs splitting into three
non-breaking-space-separated fields; on every other input the tuple
unpacking raises `ValueError` (modelled as `none`), which propagates to the
caller. -/
theorem c8_clean_table_name_error_iff (name : String) :
    (clean_table_name name).isSome = true ↔
      (splitChar '\u00A0' name.data).length = 3 := by
  have hlen : (splitChar '\u00A0' name.data).length
      = ((splitChar '\u00A0' name.data).map String.mk).length := by simp
  unfold clean_table_name
  rw [hlen]
  rcases hm : (splitChar '\u00A0' name.data).map String.mk with _ | ⟨a, _ | ⟨b, _ | ⟨c, _ | ⟨d, l⟩⟩⟩⟩
  · simp
  · simp
  · simp
  · simp
  · simp

/-- C9: when no dot-separated component of the section id equals `1`,
`get_standard_page` and the string core of `table_parent_page` both return
the identifier unchanged: the `except ValueError` branch is a defined
fallback, not an error. -/
theorem c9_no_one_component_fallback (sect_id : String)
    (h : ∀ s ∈ (splitChar '.' sect_id.data).map String.mk, s ≠ "1") :
    get_standard_page sect_id = sect_id ∧ table_parent_page sect_id = sect_id := by
  have hidx := findIdx?_none_of_all_ne "1" _ h
  constructor
  · simp only [get_standard_page, hidx]
  · simp only [table_parent_page, hidx]

/-- C9 witness: the fallback at the concrete id `sect_10.2`, whose components
`[sect_10, 2]` contain no `1`. -/
theorem c9_witness :
    get_standard_page "sect_10.2" = "sect_10.2" ∧
    table_parent_page "sect_10.2" = "sect_10.2" :=
  c9_no_one_component_fallback "sect_10.2" (by decide)

/-- C10 (counterexample): `clean_html` does not fail on every fragment
containing an anchor whose href lacks a protocol and does not have exactly
one `#`: when that anchor has empty text content it is removed by
`remove_empty_children` before the resolution pass runs, and `clean_html`
succeeds. -/
theorem c10_counterexample :
    has_url_protocol "nohash" = false ∧ countChar '#' "nohash" ≠ 1 ∧
    clean_html (Node.elem "div" []
        (.cons (Node.elem "a" [("href", "nohash")] .nil) .nil))
      = some (Node.elem "div" [] .nil) :=
  ⟨by decide, by decide, by decide⟩

/-- C10 (amended): for every href that does not start with `http`/`ftp` and
does not contain exactly one `#`, `resolve_href_url` raises (the two-way
split on `#` fails); consequently `clean_html` fails on every fragment in
which such an anchor survives sanitization, in particular whenever the
anchor's text content is non-empty. -/
theorem c10_amended (t m : Node) (a2 : List (String × String)) (cs2 : NodeList)
    (v : String) (hm : m ∈ t.subs) (hm2 : m = Node.elem "a" a2 cs2)
    (hg : getAttr a2 "href" = some v) (hp : has_url_protocol v = false)
    (hc : countChar '#' v ≠ 1) (htext : m.textChars ≠ []) :
    resolve_href_url v = none ∧ clean_html t = none := by
  have hr : resolve_href_url v = none := resolve_href_url_none_of_hash_count v hc
  refine ⟨hr, ?_⟩
  cases t with
  | text s =>
    simp [Node.subs] at hm
    rw [hm] at hm2
    exact Node.noConfusion hm2
  | elem tag attrs cs =>
    have hmA : remove_attributes_from_html_tags m
        ∈ (remove_attributes_from_html_tags (Node.elem tag attrs cs)).subs := by
      rw [subs_remove_attributes.1]
      exact List.mem_map_of_mem _ hm
    have hm2A : remove_attributes_from_html_tags m
        = Node.elem "a" (clean_tag_attributes a2) (cleanAttrsList cs2) := by
      rw [hm2]; rfl
    have htA : (remove_attributes_from_html_tags m).textChars ≠ [] := by
      rw [textChars_remove_attributes.1]
      exact htext
    have hmE := mem_subs_remove_empty.1 _ _ hmA htA
    have hm2E : remove_empty_children (remove_attributes_from_html_tags m)
        = Node.elem "a" (clean_tag_attributes a2)
            (removeEmptyList (cleanAttrsList cs2)) := by
      rw [hm2A]; rfl
    have hgE : getAttr (clean_tag_attributes a2) "href" = some v := by
      rw [getAttr_clean_tag "href" (by decide)]
      exact hg
    simp only [clean_html]
    exact resolve_fails_on_bad_anchor.1 _ _ hmE _ _ v hm2E hgE hp hr

/-- C10 witness: a fragment whose root anchor has href `nohash` and text
`x`: `resolve_href_url` raises and `clean_html` fails. -/
theorem c10_witness :
    resolve_href_url "nohash" = none ∧
    clean_html (Node.elem "a" [("href", "nohash")] (.cons (.text "x") .nil)) = none :=
  c10_amended (Node.elem "a" [("href", "nohash")] (.cons (.text "x") .nil))
    (Node.elem "a" [("href", "nohash")] (.cons (.text "x") .nil))
    [("href", "nohash")] (.cons (.text "x") .nil) "nohash"
    (by decide) rfl rfl (by decide) (by decide) (by decide)
